import Mathlib

/-!
bmpcopy: a verification development.

Shallow embedding of `src/src/bmpcopy.c` (one function, `main`) and the
properties of the copy it performs.

Modelling decisions, all taken from the source:

* A byte (`unsigned char`) is a `Fin 256`. A stream opened for reading is the
  list of bytes not yet consumed.
* `int` is a mathematical integer kept inside the signed 32-bit range; the one
  arithmetic operation of the program, `height * width`, is checked against
  that range, because signed overflow has no defined result in C.
* `*(int *)&header[k]` reads four bytes in the byte order of the host, taken to
  be little-endian (two's complement).
* The arrays `header`, `color_table` and `buffer` are not initialised by the
  program. Their first contents are parameters of the run (`World.header0`,
  `World.color_table0`, `World.buffer0`), so that whatever `fread` leaves
  untouched is an arbitrary byte, never a convenient one.
* A run that reaches an operation without defined behaviour stops there with
  `Status.undefined`; the effects performed before that point are kept.
* A variable-length array of zero elements is accepted, as the compilers this
  program is built with do; a negative element count is not.
* Memory is not bounded: an array of any non-negative size can be declared,
  and the read of an `int` at an address that is not a multiple of four is
  accepted, as on the hosts this program is written for.
* The status of a run that ends through `exit(code)` is the value `code` the
  program passes, before the host truncates it.
* The two paths `argv[1]` and `argv[2]` name different files.
-/

namespace BmpCopy

/-- An `unsigned char`. -/
abbrev Byte := Fin 256

/-- Operations of `main` that have no defined behaviour. -/
inductive Fault where
  /-- A stdio call on a `FILE *` that is `NULL`. -/
  | nullStream
  /-- The product `height * width` does not fit in an `int`. -/
  | signedOverflow
  /-- The array `buffer` declared with a negative number of elements. -/
  | negativeArraySize
  deriving DecidableEq, Repr

/-- How a run ends. -/
inductive Status where
  /-- Termination through `exit(code)` or `return code` from `main`. -/
  | exited (code : Int)
  /-- The run reached an operation without defined behaviour. -/
  | undefined (why : Fault)
  deriving DecidableEq, Repr

/-- What the program is given besides `argc`: the file system as the two
`fopen` calls see it, and the indeterminate first contents of the three
arrays. -/
structure World where
  /-- Contents of the file `argv[1]`, or `none` when `fopen(argv[1],"rb")`
  returns `NULL`. -/
  infile : Option (List Byte)
  /-- Whether `fopen(argv[2],"wb")` succeeds. -/
  outfileOpens : Bool
  /-- Indeterminate first contents of `header`. -/
  header0 : Nat → Byte
  /-- Indeterminate first contents of `color_table`. -/
  color_table0 : Nat → Byte
  /-- Indeterminate first contents of `buffer`. -/
  buffer0 : Nat → Byte

/-- The observable effects of a run. -/
structure Run where
  /-- How the run ended. -/
  status : Status
  /-- The strings printed to standard output, in order. -/
  stdout : List String
  /-- The `fopen` calls performed: index into `argv` and mode. -/
  fopens : List (Nat × String)
  /-- The bytes handed to `fwrite` on the output file, in order; `none` when
  the file was never created (no `fopen`, or `fopen` failed). -/
  outfile : Option (List Byte)
  deriving DecidableEq

/-- An array of `n` bytes that the program has not initialised. -/
def uninit (mem : Nat → Byte) (n : Nat) : List Byte :=
  (List.range n).map mem

/-- The function `getc` on a stream: the next byte as an `int`, or `EOF`
(`-1`) at end of file. -/
def getc : List Byte → Int × List Byte
  | [] => (-1, [])
  | b :: rest => ((b.val : Int), rest)

/-- Conversion of an `int` to `unsigned char`: reduction modulo 256. -/
def toUChar (c : Int) : Byte :=
  Fin.ofNat (c % 256).toNat

/-- The loop `for(int i = 0; i<54; i++) header[i] = getc(infile);`, with
`remaining = 54 - i` iterations left. Yields the array and the stream. -/
def headerLoop : (remaining i : Nat) → (header infile : List Byte) → List Byte × List Byte
  | 0, _, header, infile => (header, infile)
  | k + 1, i, header, infile =>
    headerLoop k (i + 1) (header.set i (toUChar (getc infile).1)) (getc infile).2

/-- The call `fread(ptr, sizeof(unsigned char), nmemb, stream)`: the bytes
available, at most `nmemb`, overwrite the front of `ptr`; the rest of `ptr`
keeps what it held. Yields the array and the stream. -/
def fread (ptr : List Byte) (nmemb : Nat) (stream : List Byte) : List Byte × List Byte :=
  (stream.take nmemb ++ ptr.drop (min nmemb stream.length), stream.drop nmemb)

/-- The call `fwrite(ptr, sizeof(unsigned char), nmemb, stream)`: the first
`nmemb` bytes of `ptr` are appended to the file. -/
def fwrite (ptr : List Byte) (nmemb : Nat) (stream : List Byte) : List Byte :=
  stream ++ ptr.take nmemb

/-- The expression `*(int *)&header[off]` on a little-endian host. -/
def intAt (header : List Byte) (off : Nat) : Int :=
  let u : Nat := (header.getD off 0).val + 256 * (header.getD (off + 1) 0).val
    + 65536 * (header.getD (off + 2) 0).val + 16777216 * (header.getD (off + 3) 0).val
  if u < 2147483648 then (u : Int) else (u : Int) - 4294967296

/-- The text printed when `argc != 3`. -/
def usageMessage : String :=
  "Incorrect number of arguments.\nUsage: bmpcopy [input path] [output path]\n"

/-- The function `main` of `bmpcopy.c`. -/
def main (argc : Int) (w : World) : Run :=
  if argc ≠ 3 then
    { status := .exited 1000, stdout := [usageMessage], fopens := [], outfile := none }
  else
    let fopens := [(1, "rb"), (2, "wb")]
    let outfile : Option (List Byte) := if w.outfileOpens then some [] else none
    match w.infile with
    | none =>
      -- the message is printed and the run goes on to `getc(NULL)`
      { status := .undefined .nullStream, stdout := ["File cannot be opened.\n"],
        fopens := fopens, outfile := outfile }
    | some infile =>
      let header := (headerLoop 54 0 (uninit w.header0 54) infile).1
      let infile := (headerLoop 54 0 (uninit w.header0 54) infile).2
      let width := intAt header 18
      let height := intAt header 22
      let bit_depth := intAt header 28
      let color_table :=
        if bit_depth ≤ 8 then (fread (uninit w.color_table0 1024) 1024 infile).1
        else uninit w.color_table0 1024
      let infile :=
        if bit_depth ≤ 8 then (fread (uninit w.color_table0 1024) 1024 infile).2
        else infile
      match outfile with
      | none =>
        { status := .undefined .nullStream, stdout := [], fopens := fopens, outfile := none }
      | some outfile =>
        let outfile := fwrite header 54 outfile
        if height * width < -2147483648 ∨ 2147483647 < height * width then
          { status := .undefined .signedOverflow, stdout := [], fopens := fopens,
            outfile := some outfile }
        else if height * width < 0 then
          { status := .undefined .negativeArraySize, stdout := [], fopens := fopens,
            outfile := some outfile }
        else
          let n := (height * width).toNat
          let buffer := (fread (uninit w.buffer0 n) n infile).1
          let outfile := if bit_depth ≤ 8 then fwrite color_table 1024 outfile else outfile
          let outfile := fwrite buffer n outfile
          { status := .exited 0,
            stdout := ["Copy successful!\n", "Width: " ++ toString width ++ "\n",
                       "Height: " ++ toString height ++ "\n"],
            fopens := fopens, outfile := some outfile }

/-- The header array as the read loop leaves it, seen from the stream: the
bytes of the stream while there are any, then `0xFF`. -/
def fill : Nat → List Byte → List Byte
  | 0, _ => []
  | k + 1, [] => 255 :: fill k []
  | k + 1, b :: t => b :: fill k t

/-- Number of colour-table bytes for a bit depth. -/
def paletteBytes (bit_depth : Int) : Nat :=
  if bit_depth ≤ 8 then 1024 else 0

/-- The colour-table bytes the program writes, from the stream and the first
contents of `color_table`. -/
def paletteWritten (w : World) (inp : List Byte) : List Byte :=
  if intAt (fill 54 inp) 28 ≤ 8 then
    (inp.drop 54).take 1024 ++ (uninit w.color_table0 1024).drop (min 1024 (inp.length - 54))
  else []

/-- The pixel bytes the program writes, from the stream and the first contents
of `buffer`. -/
def pixelsWritten (w : World) (inp : List Byte) : List Byte :=
  (inp.drop (54 + paletteBytes (intAt (fill 54 inp) 28))).take
      (intAt (fill 54 inp) 22 * intAt (fill 54 inp) 18).toNat
    ++ (uninit w.buffer0 (intAt (fill 54 inp) 22 * intAt (fill 54 inp) 18).toNat).drop
      (min (intAt (fill 54 inp) 22 * intAt (fill 54 inp) 18).toNat
        (inp.length - (54 + paletteBytes (intAt (fill 54 inp) 28))))

/-- The width field of a header: the `int` at offset 18. -/
def width (header : List Byte) : Int := intAt header 18

/-- The height field of a header: the `int` at offset 22. -/
def height (header : List Byte) : Int := intAt header 22

/-- The bit depth field of a header: the `int` at offset 28. -/
def bitDepth (header : List Byte) : Int := intAt header 28

/-- The length a file declares through its header: 54 header bytes, the
colour table when the bit depth asks for one, and `width * height` pixel
bytes. -/
def declaredLength (header : List Byte) : Nat :=
  54 + paletteBytes (bitDepth header) + (width header * height header).toNat

/-- The little-endian signed 32-bit integer formed from four bytes, in the
words of the specification: the unsigned value of the bytes, least significant
first, read in two's complement. -/
def leInt32 (b0 b1 b2 b3 : Byte) : Int :=
  Int.bmod ((b0.val + b1.val * 2 ^ 8 + b2.val * 2 ^ 16 + b3.val * 2 ^ 24 : Nat) : Int) (2 ^ 32)

/-- The field at offset `off` of a header as the specification reads it: the
little-endian signed 32-bit integer of the bytes `off .. off + 3`. -/
def leField (header : List Byte) (off : Nat) : Int :=
  leInt32 (header.getD off 0) (header.getD (off + 1) 0) (header.getD (off + 2) 0)
    (header.getD (off + 3) 0)

/-- The first 54 bytes of a file, completed with bytes `0xFF` when the file
has fewer. -/
def paddedHeader (inp : List Byte) : List Byte :=
  inp.take 54 ++ List.replicate (54 - inp.length) 255

/-- The four bytes of a 32-bit value, least significant first. -/
def le32 (v : Nat) : List Byte :=
  [Fin.ofNat v, Fin.ofNat (v / 256), Fin.ofNat (v / 65536), Fin.ofNat (v / 16777216)]

/-- A 54-byte header whose three fields hold the given 32-bit values and whose
other bytes are zero. -/
def mkHeader (w h depth : Nat) : List Byte :=
  List.replicate 18 0 ++ le32 w ++ le32 h ++ List.replicate 2 0 ++ le32 depth
    ++ List.replicate 22 0

/-- A world in which both files open, the input file holds `inp`, and the
arrays start out with recognisable bytes. -/
def sampleWorld (inp : List Byte) : World :=
  { infile := some inp, outfileOpens := true, header0 := fun _ => 0xA1,
    color_table0 := fun _ => 0xB2, buffer0 := fun _ => 0xC3 }

/-- The 58-byte file of the concrete scenario: width 2, height 2, bit depth
24, four pixel bytes. -/
def sampleFile : List Byte := mkHeader 2 2 24 ++ [10, 20, 30, 40]

/-- A file cut short: the header of `sampleFile` declares four pixel bytes,
two are present. -/
def truncatedFile : List Byte := mkHeader 2 2 24 ++ [10, 20]

/-- A file whose width and height fields both hold `FF FF FF FF`, followed by
one pixel byte. -/
def negativeFile : List Byte := mkHeader 4294967295 4294967295 24 ++ [7]

/-- A file whose width field holds `FE FF FF FF` (`-2`) and whose height field
holds `FD FF FF FF` (`-3`), followed by six pixel bytes. -/
def negativeSixFile : List Byte := mkHeader 4294967294 4294967293 24 ++ [1, 2, 3, 4, 5, 6]

/-- The file `sampleFile` followed by three more bytes. -/
def trailingFile : List Byte := sampleFile ++ [1, 2, 3]

/-- A 1079-byte file of bit depth 8: header, a colour table of 1024 bytes `5`,
one pixel byte. -/
def paletteFile : List Byte := mkHeader 1 1 8 ++ List.replicate 1024 5 ++ [9]

/-- A file of two bytes, shorter than a header. -/
def stubFile : List Byte := [66, 77]

/-! ## The read loop and the shape of a run -/

theorem toUChar_eof : toUChar (-1) = 255 := by decide

theorem toUChar_val (b : Byte) : toUChar (b.val : Int) = b := by
  apply Fin.ext
  have hb := b.isLt
  simp only [toUChar, Fin.ofNat]
  omega

theorem length_uninit (mem : Nat → Byte) (n : Nat) : (uninit mem n).length = n := by
  simp [uninit]

theorem length_fill (k : Nat) (s : List Byte) : (fill k s).length = k := by
  induction k generalizing s with
  | zero => simp [fill]
  | succ k ih => cases s <;> simp [fill, ih]

theorem fill_eq (k : Nat) (s : List Byte) :
    fill k s = s.take k ++ List.replicate (k - s.length) 255 := by
  induction k generalizing s with
  | zero => simp [fill]
  | succ k ih =>
    cases s with
    | nil => simp [fill, ih, List.replicate_succ]
    | cons b t => simp [fill, ih]

theorem headerLoop_eq (k i : Nat) (h s : List Byte) (hlen : i + k ≤ h.length) :
    headerLoop k i h s = (h.take i ++ fill k s ++ h.drop (i + k), s.drop k) := by
  induction k generalizing i h s with
  | zero => simp [headerLoop, fill]
  | succ k ih =>
    have hi : i < h.length := by omega
    have hset : ∀ v : Byte, (h.set i v).take (i + 1) = h.take i ++ [v] := by
      intro v
      rw [List.set_eq_take_append_cons_drop, if_pos hi]
      rw [List.take_append_eq_append_take]
      simp [List.length_take, Nat.min_eq_left (Nat.le_of_lt hi)]
    have hdrop : ∀ v : Byte, (h.set i v).drop (i + 1 + k) = h.drop (i + (k + 1)) := by
      intro v
      rw [List.drop_set_of_lt v h (by omega)]
      congr 1
      omega
    rw [headerLoop, ih (i + 1) _ _ (by simp; omega), hset, hdrop]
    cases s with
    | nil => simp [getc, fill, toUChar_eof]
    | cons b t => simp [getc, fill, toUChar_val]

theorem headerLoop_main (mem : Nat → Byte) (inp : List Byte) :
    headerLoop 54 0 (uninit mem 54) inp = (fill 54 inp, inp.drop 54) := by
  rw [headerLoop_eq 54 0 _ _ (by simp [length_uninit])]
  simp [List.drop_eq_nil_of_le, length_uninit]

theorem take_of_length_eq {l : List Byte} {n : Nat} (h : l.length = n) : l.take n = l :=
  List.take_of_length_le (Nat.le_of_eq h)

theorem length_fread (ptr : List Byte) (n : Nat) (s : List Byte) (h : ptr.length = n) :
    (fread ptr n s).1.length = n := by
  simp only [fread, List.length_append, List.length_take, List.length_drop, h]
  omega

theorem main_exited (w : World) (inp : List Byte) (hin : w.infile = some inp)
    (hout : w.outfileOpens = true)
    (h0 : 0 ≤ intAt (fill 54 inp) 22 * intAt (fill 54 inp) 18)
    (h1 : intAt (fill 54 inp) 22 * intAt (fill 54 inp) 18 ≤ 2147483647) :
    main 3 w =
      { status := .exited 0,
        stdout := ["Copy successful!\n",
                   "Width: " ++ toString (intAt (fill 54 inp) 18) ++ "\n",
                   "Height: " ++ toString (intAt (fill 54 inp) 22) ++ "\n"],
        fopens := [(1, "rb"), (2, "wb")],
        outfile := some (fill 54 inp ++ paletteWritten w inp ++ pixelsWritten w inp) } := by
  have hA : ¬ (intAt (fill 54 inp) 22 * intAt (fill 54 inp) 18 < -2147483648
      ∨ 2147483647 < intAt (fill 54 inp) 22 * intAt (fill 54 inp) 18) := by omega
  have hB : ¬ intAt (fill 54 inp) 22 * intAt (fill 54 inp) 18 < 0 := by omega
  simp only [main, hin, hout, headerLoop_main, if_true, if_neg hA, if_neg hB, ne_eq,
    not_true_eq_false, if_false]
  have hct := take_of_length_eq (length_fread (uninit w.color_table0 1024) 1024 (inp.drop 54)
    (length_uninit _ _))
  by_cases hbd : intAt (fill 54 inp) 28 ≤ 8
  · have hbuf := take_of_length_eq (length_fread
      (uninit w.buffer0 (intAt (fill 54 inp) 22 * intAt (fill 54 inp) 18).toNat)
      (intAt (fill 54 inp) 22 * intAt (fill 54 inp) 18).toNat ((inp.drop 54).drop 1024)
      (length_uninit _ _))
    simp only [hbd, if_true, fwrite, paletteWritten, pixelsWritten, paletteBytes,
      List.nil_append, take_of_length_eq (length_fill 54 inp)]
    simp only [fread] at hct hbuf ⊢
    rw [hct, hbuf]
    simp [List.append_assoc]
  · have hbuf := take_of_length_eq (length_fread
      (uninit w.buffer0 (intAt (fill 54 inp) 22 * intAt (fill 54 inp) 18).toNat)
      (intAt (fill 54 inp) 22 * intAt (fill 54 inp) 18).toNat (inp.drop 54)
      (length_uninit _ _))
    simp only [hbd, if_false, fwrite, paletteWritten, pixelsWritten, paletteBytes,
      List.nil_append, take_of_length_eq (length_fill 54 inp)]
    simp only [fread] at hbuf ⊢
    rw [hbuf]
    simp


theorem fill_of_le (inp : List Byte) (h : 54 ≤ inp.length) : fill 54 inp = inp.take 54 := by
  rw [fill_eq, Nat.sub_eq_zero_of_le h]
  simp

theorem fill_of_lt (inp : List Byte) (h : inp.length < 54) :
    fill 54 inp = inp ++ List.replicate (54 - inp.length) 255 := by
  rw [fill_eq, List.take_of_length_le (Nat.le_of_lt h)]

theorem getD_take (l : List Byte) (n i : Nat) (h : i < n) :
    (l.take n).getD i 0 = l.getD i 0 := by
  simp [List.getD_eq_getElem?_getD, List.getElem?_take, h]

theorem intAt_take (l : List Byte) (n off : Nat) (h : off + 3 < n) :
    intAt (l.take n) off = intAt l off := by
  simp only [intAt, getD_take l n off (by omega), getD_take l n (off + 1) (by omega),
    getD_take l n (off + 2) (by omega), getD_take l n (off + 3) h]

theorem getD_append_left (l t : List Byte) (i : Nat) (h : i < l.length) :
    (l ++ t).getD i 0 = l.getD i 0 :=
  List.getD_append l t 0 i h

theorem intAt_append (l t : List Byte) (off : Nat) (h : off + 3 < l.length) :
    intAt (l ++ t) off = intAt l off := by
  simp only [intAt, getD_append_left l t off (by omega), getD_append_left l t (off + 1) (by omega),
    getD_append_left l t (off + 2) (by omega), getD_append_left l t (off + 3) h]

theorem length_paletteWritten (w : World) (inp : List Byte) :
    (paletteWritten w inp).length = paletteBytes (intAt (fill 54 inp) 28) := by
  unfold paletteWritten paletteBytes
  split
  · simp only [List.length_append, List.length_take, List.length_drop, length_uninit]
    omega
  · rfl

theorem length_pixelsWritten (w : World) (inp : List Byte) :
    (pixelsWritten w inp).length = (intAt (fill 54 inp) 22 * intAt (fill 54 inp) 18).toNat := by
  unfold pixelsWritten
  simp only [List.length_append, List.length_take, List.length_drop, length_uninit]
  omega

theorem main_overflow (w : World) (inp : List Byte) (hin : w.infile = some inp)
    (hout : w.outfileOpens = true)
    (h : intAt (fill 54 inp) 22 * intAt (fill 54 inp) 18 < -2147483648
      ∨ 2147483647 < intAt (fill 54 inp) 22 * intAt (fill 54 inp) 18) :
    main 3 w =
      { status := .undefined .signedOverflow, stdout := [], fopens := [(1, "rb"), (2, "wb")],
        outfile := some (fill 54 inp) } := by
  simp only [main, hin, hout, headerLoop_main, if_true, if_pos h, ne_eq,
    not_true_eq_false, if_false, fwrite, List.nil_append, take_of_length_eq (length_fill 54 inp)]

theorem main_negative (w : World) (inp : List Byte) (hin : w.infile = some inp)
    (hout : w.outfileOpens = true)
    (h0 : -2147483648 ≤ intAt (fill 54 inp) 22 * intAt (fill 54 inp) 18)
    (h1 : intAt (fill 54 inp) 22 * intAt (fill 54 inp) 18 < 0) :
    main 3 w =
      { status := .undefined .negativeArraySize, stdout := [],
        fopens := [(1, "rb"), (2, "wb")], outfile := some (fill 54 inp) } := by
  have hA : ¬ (intAt (fill 54 inp) 22 * intAt (fill 54 inp) 18 < -2147483648
      ∨ 2147483647 < intAt (fill 54 inp) 22 * intAt (fill 54 inp) 18) := by omega
  simp only [main, hin, hout, headerLoop_main, if_true, if_neg hA, if_pos h1, ne_eq,
    not_true_eq_false, if_false, fwrite, List.nil_append, take_of_length_eq (length_fill 54 inp)]

theorem paletteWritten_of_le (w : World) (inp : List Byte)
    (hlen : 54 + paletteBytes (intAt (fill 54 inp) 28) ≤ inp.length) :
    paletteWritten w inp = (inp.drop 54).take (paletteBytes (intAt (fill 54 inp) 28)) := by
  unfold paletteWritten
  unfold paletteBytes at hlen ⊢
  split
  · rename_i hbd
    rw [if_pos hbd] at hlen
    have hd : (uninit w.color_table0 1024).drop (min 1024 (inp.length - 54)) = [] :=
      List.drop_eq_nil_of_le (by rw [length_uninit]; omega)
    rw [hd, List.append_nil]
  · simp

theorem pixelsWritten_of_le (w : World) (inp : List Byte)
    (hlen : 54 + paletteBytes (intAt (fill 54 inp) 28)
      + (intAt (fill 54 inp) 22 * intAt (fill 54 inp) 18).toNat ≤ inp.length) :
    pixelsWritten w inp = (inp.drop (54 + paletteBytes (intAt (fill 54 inp) 28))).take
      (intAt (fill 54 inp) 22 * intAt (fill 54 inp) 18).toNat := by
  unfold pixelsWritten
  have hd : (uninit w.buffer0 (intAt (fill 54 inp) 22 * intAt (fill 54 inp) 18).toNat).drop
      (min (intAt (fill 54 inp) 22 * intAt (fill 54 inp) 18).toNat
        (inp.length - (54 + paletteBytes (intAt (fill 54 inp) 28)))) = [] :=
    List.drop_eq_nil_of_le (by rw [length_uninit]; omega)
  rw [hd, List.append_nil]

/-- With the whole declared length present, what is written is the front of
the input. -/
theorem written_of_le (w : World) (inp : List Byte)
    (hlen : 54 + paletteBytes (intAt (fill 54 inp) 28)
      + (intAt (fill 54 inp) 22 * intAt (fill 54 inp) 18).toNat ≤ inp.length) :
    fill 54 inp ++ paletteWritten w inp ++ pixelsWritten w inp
      = inp.take (54 + paletteBytes (intAt (fill 54 inp) 28)
          + (intAt (fill 54 inp) 22 * intAt (fill 54 inp) 18).toNat) := by
  rw [List.take_add, List.take_add, pixelsWritten_of_le w inp hlen,
    paletteWritten_of_le w inp (by omega), fill_of_le inp (by omega)]


theorem fields_of_le (inp : List Byte) (h : 54 ≤ inp.length) :
    intAt (fill 54 inp) 18 = width inp ∧ intAt (fill 54 inp) 22 = height inp
      ∧ intAt (fill 54 inp) 28 = bitDepth inp := by
  rw [fill_of_le inp h]
  exact ⟨intAt_take inp 54 18 (by omega), intAt_take inp 54 22 (by omega),
    intAt_take inp 54 28 (by omega)⟩

/-- A run on a file that holds at least what its header declares. -/
theorem main_of_declared (w : World) (inp : List Byte) (hin : w.infile = some inp)
    (hout : w.outfileOpens = true)
    (h0 : 0 ≤ width inp * height inp) (h1 : width inp * height inp ≤ 2147483647)
    (hlen : declaredLength inp ≤ inp.length) :
    main 3 w =
      { status := .exited 0,
        stdout := ["Copy successful!\n", "Width: " ++ toString (width inp) ++ "\n",
                   "Height: " ++ toString (height inp) ++ "\n"],
        fopens := [(1, "rb"), (2, "wb")],
        outfile := some (inp.take (declaredLength inp)) } := by
  have h54 : 54 ≤ inp.length := by unfold declaredLength at hlen; omega
  obtain ⟨hw, hh, hb⟩ := fields_of_le inp h54
  have hmul : height inp * width inp = width inp * height inp := Int.mul_comm _ _
  rw [main_exited w inp hin hout (by rw [hw, hh, hmul]; exact h0)
    (by rw [hw, hh, hmul]; exact h1)]
  rw [written_of_le w inp (by rw [hw, hh, hb, hmul]; exact hlen)]
  rw [hw, hh, hb, hmul]
  rfl


theorem le_declaredLength (inp : List Byte) : 54 ≤ declaredLength inp := by
  unfold declaredLength
  omega

theorem declaredLength_take (inp : List Byte) (n : Nat) (h : 54 ≤ n) :
    width (inp.take n) = width inp ∧ height (inp.take n) = height inp
      ∧ bitDepth (inp.take n) = bitDepth inp
      ∧ declaredLength (inp.take n) = declaredLength inp := by
  have hw : width (inp.take n) = width inp := intAt_take inp n 18 (by omega)
  have hh : height (inp.take n) = height inp := intAt_take inp n 22 (by omega)
  have hb : bitDepth (inp.take n) = bitDepth inp := intAt_take inp n 28 (by omega)
  refine ⟨hw, hh, hb, ?_⟩
  unfold declaredLength
  rw [hw, hh, hb]

theorem declaredLength_append (header rest : List Byte) (h : header.length = 54) :
    width (header ++ rest) = width header ∧ height (header ++ rest) = height header
      ∧ bitDepth (header ++ rest) = bitDepth header
      ∧ declaredLength (header ++ rest) = declaredLength header := by
  have hw : width (header ++ rest) = width header := intAt_append header rest 18 (by omega)
  have hh : height (header ++ rest) = height header := intAt_append header rest 22 (by omega)
  have hb : bitDepth (header ++ rest) = bitDepth header := intAt_append header rest 28 (by omega)
  refine ⟨hw, hh, hb, ?_⟩
  unfold declaredLength
  rw [hw, hh, hb]

/-! ## The copy on well-formed files -/

/-- C1, round-trip identity: a file made of exactly 54 header bytes, then
exactly 1024 palette bytes if and only if the decoded bit depth is at most 8,
then exactly `width * height` pixel bytes, with width and height non-negative
and their product within a signed 32-bit `int`, is copied with `argc = 3` to an
output equal to the input, byte for byte, and the run returns 0. -/
theorem roundtrip_identity (w : World) (header palette pixels : List Byte)
    (hin : w.infile = some (header ++ palette ++ pixels)) (hout : w.outfileOpens = true)
    (hheader : header.length = 54)
    (hpalette : palette.length = if bitDepth header ≤ 8 then 1024 else 0)
    (hwidth : 0 ≤ width header) (hheight : 0 ≤ height header)
    (hfit : width header * height header ≤ 2147483647)
    (hpixels : (pixels.length : Int) = width header * height header) :
    (main 3 w).status = .exited 0
      ∧ (main 3 w).outfile = some (header ++ palette ++ pixels) := by
  obtain ⟨hw, hh, hb, hd⟩ := declaredLength_append header (palette ++ pixels) hheader
  rw [← List.append_assoc] at hw hh hb hd
  have hN : declaredLength (header ++ palette ++ pixels)
      = (header ++ palette ++ pixels).length := by
    rw [hd]
    unfold declaredLength paletteBytes
    simp only [List.length_append, hheader, hpalette]
    omega
  have hrun := main_of_declared w _ hin hout
    (by rw [hw, hh]; exact Int.mul_nonneg hwidth hheight) (by rw [hw, hh]; exact hfit)
    (Nat.le_of_eq hN)
  rw [hrun, hN, List.take_length]
  exact ⟨rfl, rfl⟩

/-- C2, size invariant: for an input that holds at least its declared length,
with width and height non-negative and their product within a signed 32-bit
`int`, the number of bytes written to the output is
`54 + (1024 if bit_depth <= 8 else 0) + width * height`, the three values being
those decoded from the header. -/
theorem size_invariant (w : World) (inp : List Byte)
    (hin : w.infile = some inp) (hout : w.outfileOpens = true)
    (hwidth : 0 ≤ width inp) (hheight : 0 ≤ height inp)
    (hfit : width inp * height inp ≤ 2147483647)
    (hlen : declaredLength inp ≤ inp.length) :
    ∃ out, (main 3 w).outfile = some out
      ∧ (out.length : Int)
          = 54 + (if bitDepth inp ≤ 8 then 1024 else 0) + width inp * height inp := by
  have hprod := Int.mul_nonneg hwidth hheight
  refine ⟨inp.take (declaredLength inp), ?_, ?_⟩
  · rw [main_of_declared w inp hin hout hprod hfit hlen]
  · rw [List.length_take, Nat.min_eq_left hlen]
    unfold declaredLength paletteBytes
    split <;> push_cast <;> omega

/-- C8, trailing data is dropped: for an input with non-negative dimensions
whose product fits a signed 32-bit `int` and whose length is at least
`N = 54 + (1024 if bit_depth <= 8 else 0) + width * height`, the output is
exactly the first `N` bytes of the input; an input with bytes beyond offset `N`
is therefore not reproduced, and any input that agrees with it on the first `N`
bytes gives the same output. -/
theorem trailing_data_dropped (w : World) (inp : List Byte)
    (hin : w.infile = some inp) (hout : w.outfileOpens = true)
    (hwidth : 0 ≤ width inp) (hheight : 0 ≤ height inp)
    (hfit : width inp * height inp ≤ 2147483647)
    (hlen : declaredLength inp ≤ inp.length) :
    (main 3 w).outfile = some (inp.take (declaredLength inp))
      ∧ (declaredLength inp < inp.length → (main 3 w).outfile ≠ some inp)
      ∧ ∀ (w2 : World) (inp2 : List Byte), w2.infile = some inp2 → w2.outfileOpens = true →
          inp2.take (declaredLength inp) = inp.take (declaredLength inp) →
          (main 3 w2).outfile = (main 3 w).outfile := by
  have hprod := Int.mul_nonneg hwidth hheight
  have hrun := main_of_declared w inp hin hout hprod hfit hlen
  refine ⟨by rw [hrun], ?_, ?_⟩
  · intro hlt heq
    rw [hrun] at heq
    have hl := congrArg List.length (Option.some.inj heq)
    rw [List.length_take] at hl
    omega
  · intro w2 inp2 hin2 hout2 htake
    have h54 := le_declaredLength inp
    obtain ⟨hw1, hh1, _, hd1⟩ := declaredLength_take inp (declaredLength inp) h54
    obtain ⟨hw2, hh2, _, hd2⟩ := declaredLength_take inp2 (declaredLength inp) h54
    rw [htake] at hw2 hh2 hd2
    have hw : width inp2 = width inp := by rw [← hw2, hw1]
    have hh : height inp2 = height inp := by rw [← hh2, hh1]
    have hd : declaredLength inp2 = declaredLength inp := by rw [← hd2, hd1]
    have hl := congrArg List.length htake
    rw [List.length_take, List.length_take] at hl
    have hlen2 : declaredLength inp2 ≤ inp2.length := by rw [hd]; omega
    rw [hrun, main_of_declared w2 inp2 hin2 hout2 (by rw [hw, hh]; exact hprod)
      (by rw [hw, hh]; exact hfit) hlen2, hd, htake]

/-- C9, idempotence: for an input of at least the declared length, with
non-negative dimensions whose product fits a signed 32-bit `int`, running the
program again on the file the first run wrote gives the same file: the output
has the same header and exactly the length that header declares. -/
theorem copy_idempotent (w1 w2 : World) (inp : List Byte)
    (hin : w1.infile = some inp) (hout : w1.outfileOpens = true)
    (hwidth : 0 ≤ width inp) (hheight : 0 ≤ height inp)
    (hfit : width inp * height inp ≤ 2147483647)
    (hlen : declaredLength inp ≤ inp.length)
    (hin2 : w2.infile = (main 3 w1).outfile) (hout2 : w2.outfileOpens = true) :
    (main 3 w2).status = .exited 0 ∧ (main 3 w2).outfile = (main 3 w1).outfile := by
  have hprod := Int.mul_nonneg hwidth hheight
  have hrun := main_of_declared w1 inp hin hout hprod hfit hlen
  rw [hrun] at hin2 ⊢
  obtain ⟨hw, hh, _, hd⟩ := declaredLength_take inp (declaredLength inp) (le_declaredLength inp)
  have hl : (inp.take (declaredLength inp)).length = declaredLength inp := by
    rw [List.length_take]; omega
  have hrun2 := main_of_declared w2 _ hin2 hout2 (by rw [hw, hh]; exact hprod)
    (by rw [hw, hh]; exact hfit) (by rw [hd, hl])
  rw [hrun2, hd]
  refine ⟨rfl, ?_⟩
  simp


theorem intAt_eq_leInt32 (l : List Byte) (off : Nat) :
    intAt l off = leInt32 (l.getD off 0) (l.getD (off + 1) 0) (l.getD (off + 2) 0)
      (l.getD (off + 3) 0) := by
  have h0 := (l.getD off 0).isLt
  have h1 := (l.getD (off + 1) 0).isLt
  have h2 := (l.getD (off + 2) 0).isLt
  have h3 := (l.getD (off + 3) 0).isLt
  simp only [intAt, leInt32, Int.bmod]
  norm_num
  split <;> split <;> omega

theorem fill_eq_paddedHeader (inp : List Byte) : fill 54 inp = paddedHeader inp :=
  fill_eq 54 inp

theorem length_paddedHeader (inp : List Byte) : (paddedHeader inp).length = 54 := by
  rw [← fill_eq_paddedHeader, length_fill]

/-- Every run with both files open, told from the header the program holds. -/
theorem main_padded (w : World) (inp : List Byte) (hin : w.infile = some inp)
    (hout : w.outfileOpens = true) :
    (0 ≤ height (paddedHeader inp) * width (paddedHeader inp)
        ∧ height (paddedHeader inp) * width (paddedHeader inp) ≤ 2147483647
        ∧ main 3 w =
          { status := .exited 0,
            stdout := ["Copy successful!\n",
                       "Width: " ++ toString (width (paddedHeader inp)) ++ "\n",
                       "Height: " ++ toString (height (paddedHeader inp)) ++ "\n"],
            fopens := [(1, "rb"), (2, "wb")],
            outfile := some (paddedHeader inp ++ paletteWritten w inp ++ pixelsWritten w inp) })
    ∨ (¬ (0 ≤ height (paddedHeader inp) * width (paddedHeader inp)
          ∧ height (paddedHeader inp) * width (paddedHeader inp) ≤ 2147483647)
        ∧ (main 3 w).outfile = some (paddedHeader inp)
        ∧ (main 3 w).stdout = []
        ∧ ∃ why, (main 3 w).status = .undefined why) := by
  unfold width height
  rw [← fill_eq_paddedHeader]
  by_cases h : intAt (fill 54 inp) 22 * intAt (fill 54 inp) 18 < -2147483648
      ∨ 2147483647 < intAt (fill 54 inp) 22 * intAt (fill 54 inp) 18
  · right
    rw [main_overflow w inp hin hout h]
    exact ⟨by omega, rfl, rfl, _, rfl⟩
  · by_cases h0 : intAt (fill 54 inp) 22 * intAt (fill 54 inp) 18 < 0
    · right
      rw [main_negative w inp hin hout (by omega) h0]
      exact ⟨by omega, rfl, rfl, _, rfl⟩
    · left
      exact ⟨by omega, by omega, main_exited w inp hin hout (by omega) (by omega)⟩

theorem length_written (w : World) (inp : List Byte) :
    (paddedHeader inp ++ paletteWritten w inp ++ pixelsWritten w inp).length
      = 54 + paletteBytes (bitDepth (paddedHeader inp))
        + (height (paddedHeader inp) * width (paddedHeader inp)).toNat := by
  simp only [List.length_append, length_paddedHeader, length_paletteWritten,
    length_pixelsWritten, fill_eq_paddedHeader, bitDepth, height, width]

/-- What is written when the input holds no more than its header declares:
the input, then `0xFF` for each header byte that is missing, then what
`color_table` and `buffer` held from the index where the reads stopped. -/
theorem written_of_short (w : World) (inp : List Byte)
    (hshort : inp.length ≤ 54 + paletteBytes (bitDepth (paddedHeader inp))
        + (height (paddedHeader inp) * width (paddedHeader inp)).toNat) :
    paddedHeader inp ++ paletteWritten w inp ++ pixelsWritten w inp
      = inp ++ List.replicate (54 - inp.length) 255
        ++ (if bitDepth (paddedHeader inp) ≤ 8 then
              (uninit w.color_table0 1024).drop (min 1024 (inp.length - 54))
            else [])
        ++ (uninit w.buffer0 (height (paddedHeader inp) * width (paddedHeader inp)).toNat).drop
            (min (height (paddedHeader inp) * width (paddedHeader inp)).toNat
              (inp.length - (54 + paletteBytes (bitDepth (paddedHeader inp))))) := by
  have hP : paletteWritten w inp
      = (inp.drop 54).take (paletteBytes (bitDepth (paddedHeader inp)))
        ++ (if bitDepth (paddedHeader inp) ≤ 8 then
              (uninit w.color_table0 1024).drop (min 1024 (inp.length - 54))
            else []) := by
    unfold paletteWritten paletteBytes bitDepth
    rw [fill_eq_paddedHeader]
    split <;> simp
  have hX : pixelsWritten w inp
      = (inp.drop (54 + paletteBytes (bitDepth (paddedHeader inp)))).take
          (height (paddedHeader inp) * width (paddedHeader inp)).toNat
        ++ (uninit w.buffer0
              (height (paddedHeader inp) * width (paddedHeader inp)).toNat).drop
            (min (height (paddedHeader inp) * width (paddedHeader inp)).toNat
              (inp.length - (54 + paletteBytes (bitDepth (paddedHeader inp))))) := by
    unfold pixelsWritten bitDepth height width
    rw [fill_eq_paddedHeader]
  have hg1 : 54 + paletteBytes (bitDepth (paddedHeader inp)) ≤ inp.length →
      (if bitDepth (paddedHeader inp) ≤ 8 then
        (uninit w.color_table0 1024).drop (min 1024 (inp.length - 54)) else []) = [] := by
    intro hle
    unfold paletteBytes at hle
    split
    · rename_i hbd
      rw [if_pos hbd] at hle
      exact List.drop_eq_nil_of_le (by rw [length_uninit]; omega)
    · rfl
  rw [hP, hX]
  generalize (if bitDepth (paddedHeader inp) ≤ 8 then
      (uninit w.color_table0 1024).drop (min 1024 (inp.length - 54)) else []) = g1 at hg1 ⊢
  generalize (uninit w.buffer0
      (height (paddedHeader inp) * width (paddedHeader inp)).toNat).drop
        (min (height (paddedHeader inp) * width (paddedHeader inp)).toNat
          (inp.length - (54 + paletteBytes (bitDepth (paddedHeader inp))))) = g2
  have hpb : paletteBytes (bitDepth (paddedHeader inp)) = 1024
      ∨ paletteBytes (bitDepth (paddedHeader inp)) = 0 := by
    unfold paletteBytes
    split
    · exact Or.inl rfl
    · exact Or.inr rfl
  generalize paletteBytes (bitDepth (paddedHeader inp)) = pb at hshort hpb hg1 ⊢
  generalize (height (paddedHeader inp) * width (paddedHeader inp)).toNat = n at hshort ⊢
  have htake : (inp.drop (54 + pb)).take n = inp.drop (54 + pb) :=
    List.take_of_length_le (by rw [List.length_drop]; omega)
  rw [htake]
  unfold paddedHeader
  by_cases h54 : inp.length < 54
  · rw [List.take_of_length_le (Nat.le_of_lt h54),
      List.drop_eq_nil_of_le (Nat.le_of_lt h54),
      List.drop_eq_nil_of_le (show inp.length ≤ 54 + pb by omega)]
    simp only [List.take_nil, List.nil_append, List.append_assoc]
  · have hz : 54 - inp.length = 0 := by omega
    rw [hz, List.replicate_zero, List.append_nil, List.append_nil]
    by_cases hpal : inp.length < 54 + pb
    · have hd : inp.drop (54 + pb) = [] := List.drop_eq_nil_of_le (by omega)
      have ht : (inp.drop 54).take pb = inp.drop 54 :=
        List.take_of_length_le (by rw [List.length_drop]; omega)
      rw [hd, ht, List.nil_append, ← List.append_assoc, List.take_append_drop]
    · rw [hg1 (by omega), List.append_nil, List.append_nil, ← List.append_assoc,
        ← List.take_add, List.take_append_drop]

theorem paddedHeader_of_le (inp : List Byte) (h : 54 ≤ inp.length) :
    width (paddedHeader inp) = width inp ∧ height (paddedHeader inp) = height inp
      ∧ bitDepth (paddedHeader inp) = bitDepth inp ∧ paddedHeader inp = inp.take 54 := by
  obtain ⟨hw, hh, hb⟩ := fields_of_le inp h
  rw [fill_eq_paddedHeader] at hw hh hb
  exact ⟨hw, hh, hb, by rw [← fill_eq_paddedHeader, fill_of_le inp h]⟩

/-! ## Palette, arguments, decoding -/

/-- C3, conditional palette: for an input that holds its 54 header bytes and,
when the bit depth asks for one, its colour table, and whose dimensions give a
pixel count within `0 .. 2^31 - 1`, the output is the header, then a palette
block, then the pixel bytes; the palette block has 1024 bytes, equal to input
bytes 54..1077, if and only if the decoded bit depth is at most 8, and is
empty otherwise. For bit depth 8 the block is there; for bit depth 24 there are
no palette bytes and the pixel bytes start at output offset 54. -/
theorem conditional_palette (w : World) (inp : List Byte)
    (hin : w.infile = some inp) (hout : w.outfileOpens = true)
    (h0 : 0 ≤ width inp * height inp) (hfit : width inp * height inp ≤ 2147483647)
    (hlen : 54 + paletteBytes (bitDepth inp) ≤ inp.length) :
    ∃ palette pixels,
      (main 3 w).outfile = some (inp.take 54 ++ palette ++ pixels)
      ∧ pixels.length = (width inp * height inp).toNat
      ∧ (palette.length = 1024 ↔ bitDepth inp ≤ 8)
      ∧ (palette.length = 0 ↔ ¬ bitDepth inp ≤ 8)
      ∧ (bitDepth inp ≤ 8 → palette = (inp.drop 54).take 1024)
      ∧ (bitDepth inp = 8 → palette.length = 1024)
      ∧ (bitDepth inp = 24 → palette = [] ∧
          (main 3 w).outfile = some (inp.take 54 ++ pixels))
      ∧ (declaredLength inp ≤ inp.length →
          pixels = (inp.drop (54 + palette.length)).take (width inp * height inp).toNat) := by
  have h54 : 54 ≤ inp.length := by omega
  obtain ⟨hw, hh, hb⟩ := fields_of_le inp h54
  have hmul : height inp * width inp = width inp * height inp := Int.mul_comm _ _
  have hrun := main_exited w inp hin hout (by rw [hw, hh, hmul]; exact h0)
    (by rw [hw, hh, hmul]; exact hfit)
  have hP := paletteWritten_of_le w inp (by rw [hb]; exact hlen)
  have hPl := length_paletteWritten w inp
  have hXl := length_pixelsWritten w inp
  rw [hb] at hP hPl
  rw [hw, hh, hmul] at hXl
  have hpb : bitDepth inp ≤ 8 → paletteBytes (bitDepth inp) = 1024 := by
    intro h; unfold paletteBytes; rw [if_pos h]
  have hpb0 : ¬ bitDepth inp ≤ 8 → paletteBytes (bitDepth inp) = 0 := by
    intro h; unfold paletteBytes; rw [if_neg h]
  have hnil : ¬ bitDepth inp ≤ 8 → paletteWritten w inp = [] := by
    intro h
    exact List.eq_nil_of_length_eq_zero (by rw [hPl, hpb0 h])
  refine ⟨paletteWritten w inp, pixelsWritten w inp, ?_, hXl, ?_, ?_, ?_, ?_, ?_, ?_⟩
  · rw [hrun, fill_of_le inp h54]
  · rw [hPl]
    constructor
    · intro h
      by_contra hne
      rw [hpb0 hne] at h
      omega
    · exact hpb
  · rw [hPl]
    constructor
    · intro h hle
      rw [hpb hle] at h
      omega
    · exact hpb0
  · intro h
    rw [hP, hpb h]
  · intro h
    rw [hPl, hpb (by omega)]
  · intro h
    have hne : ¬ bitDepth inp ≤ 8 := by omega
    refine ⟨hnil hne, ?_⟩
    rw [hrun, fill_of_le inp h54, hnil hne, List.append_nil]
  · intro hd
    have hX := pixelsWritten_of_le w inp (by rw [hw, hh, hb, hmul]; exact hd)
    rw [hw, hh, hb, hmul] at hX
    rw [hX, hPl]

/-- C5, argument count validation: for every `argc` other than 3 the program
prints the usage message, ends through `exit(1000)`, and performs no `fopen`
and no write, so that no file is opened, created or modified; with `argc = 3`
that branch is not taken: both `fopen` calls are performed, the usage message
is not printed and the run does not end with code 1000. -/
theorem argument_count_validation (argc : Int) (w : World) (hargc : argc ≠ 3) :
    main argc w
        = { status := .exited 1000, stdout := [usageMessage], fopens := [], outfile := none }
      ∧ (main 3 w).fopens = [(1, "rb"), (2, "wb")]
      ∧ usageMessage ∉ (main 3 w).stdout
      ∧ (main 3 w).status ≠ .exited 1000 := by
  refine ⟨by simp only [main, if_pos hargc], ?_⟩
  cases hi : w.infile with
  | none =>
    simp only [main, hi, ne_eq, not_true_eq_false, if_false]
    simp [usageMessage]
  | some inp =>
    cases ho : w.outfileOpens with
    | false =>
      simp only [main, hi, ho, ne_eq, not_true_eq_false, if_false]
      simp
    | true =>
      rcases main_padded w inp hi ho with ⟨_, _, hrun⟩ | ⟨_, _, hstd, why, hst⟩
      · rw [hrun]
        refine ⟨rfl, ?_, ?_⟩
        · simp [usageMessage, String.ext_iff]
        · simp
      · rw [hstd, hst]
        refine ⟨?_, by simp, by simp⟩
        by_cases h : intAt (fill 54 inp) 22 * intAt (fill 54 inp) 18 < -2147483648
            ∨ 2147483647 < intAt (fill 54 inp) 22 * intAt (fill 54 inp) 18
        · rw [main_overflow w inp hi ho h]
        · by_cases h0 : intAt (fill 54 inp) 22 * intAt (fill 54 inp) 18 < 0
          · rw [main_negative w inp hi ho (by omega) h0]
          · rw [main_exited w inp hi ho (by omega) (by omega)]


/-- C6, field decoding: for every 54-byte header, the width, height and bit
depth the program works with are the little-endian signed 32-bit integers of
header bytes 18..21, 22..25 and 28..31 (the bytes `FF FF FF FF` give `-1`);
the run completes exactly when the product of the two dimensions lies in
`0 .. 2^31 - 1`, and a run that completes returns 0, prints exactly these width
and height, and writes a palette exactly when this bit depth is at most 8. -/
theorem field_decoding (w : World) (header rest : List Byte)
    (hin : w.infile = some (header ++ rest)) (hout : w.outfileOpens = true)
    (hheader : header.length = 54) :
    leInt32 255 255 255 255 = -1
      ∧ width header = leField header 18 ∧ height header = leField header 22
      ∧ bitDepth header = leField header 28
      ∧ ((main 3 w).status = .exited 0 ↔
          0 ≤ leField header 22 * leField header 18
            ∧ leField header 22 * leField header 18 ≤ 2147483647)
      ∧ ∀ code, (main 3 w).status = .exited code →
          code = 0
          ∧ (main 3 w).stdout = ["Copy successful!\n",
              "Width: " ++ toString (leField header 18) ++ "\n",
              "Height: " ++ toString (leField header 22) ++ "\n"]
          ∧ ∃ out, (main 3 w).outfile = some out
              ∧ out.length = 54 + (if leField header 28 ≤ 8 then 1024 else 0)
                  + (leField header 22 * leField header 18).toNat := by
  have hlen : 54 ≤ (header ++ rest).length := by rw [List.length_append]; omega
  obtain ⟨hw, hh, hb, _⟩ := paddedHeader_of_le (header ++ rest) hlen
  obtain ⟨hw2, hh2, hb2, _⟩ := declaredLength_append header rest hheader
  have hW : width (paddedHeader (header ++ rest)) = leField header 18 := by
    rw [hw, hw2]; exact intAt_eq_leInt32 header 18
  have hH : height (paddedHeader (header ++ rest)) = leField header 22 := by
    rw [hh, hh2]; exact intAt_eq_leInt32 header 22
  have hB : bitDepth (paddedHeader (header ++ rest)) = leField header 28 := by
    rw [hb, hb2]; exact intAt_eq_leInt32 header 28
  refine ⟨by decide, intAt_eq_leInt32 header 18, intAt_eq_leInt32 header 22,
    intAt_eq_leInt32 header 28, ?_⟩
  have hl := length_written w (header ++ rest)
  rw [hW, hH, hB] at hl
  rcases main_padded w (header ++ rest) hin hout with ⟨h0, h1, hrun⟩ | ⟨hno, _, _, why, hst⟩
  · rw [hW, hH] at h0 h1 hrun
    rw [hrun]
    refine ⟨⟨fun _ => ⟨h0, h1⟩, fun _ => rfl⟩, ?_⟩
    intro code hcode
    refine ⟨?_, rfl, _, rfl, ?_⟩
    · simp only [Status.exited.injEq] at hcode
      omega
    · rw [hl]
      unfold paletteBytes
      rfl
  · rw [hW, hH] at hno
    rw [hst]
    refine ⟨⟨fun h => by simp at h, fun h => absurd h hno⟩, ?_⟩
    intro code hcode
    simp at hcode

/-- C10, short-header fill: for an input of length `n < 54` the header read
loop does not stop at end of file. The header array, and the 54 header bytes
written to the output, are the `n` input bytes followed by `54 - n` bytes
`0xFF`; width, height and bit depth are decoded from that padded header: the
run completes exactly when their product lies in `0 .. 2^31 - 1`, it then
prints them and sizes the output by them. An empty input decodes all three
as `-1`. -/
theorem short_header_fill (w : World) (inp : List Byte)
    (hin : w.infile = some inp) (hout : w.outfileOpens = true)
    (hshort : inp.length < 54) :
    paddedHeader inp = inp ++ List.replicate (54 - inp.length) 255
      ∧ (headerLoop 54 0 (uninit w.header0 54) inp).1
          = inp ++ List.replicate (54 - inp.length) 255
      ∧ (∃ out, (main 3 w).outfile = some out
          ∧ out.take 54 = inp ++ List.replicate (54 - inp.length) 255)
      ∧ ((main 3 w).status = .exited 0 ↔
          0 ≤ height (paddedHeader inp) * width (paddedHeader inp)
            ∧ height (paddedHeader inp) * width (paddedHeader inp) ≤ 2147483647)
      ∧ ((main 3 w).status = .exited 0 →
          (main 3 w).stdout = ["Copy successful!\n",
              "Width: " ++ toString (width (paddedHeader inp)) ++ "\n",
              "Height: " ++ toString (height (paddedHeader inp)) ++ "\n"]
          ∧ ∃ out, (main 3 w).outfile = some out
              ∧ out.length = 54 + (if bitDepth (paddedHeader inp) ≤ 8 then 1024 else 0)
                  + (height (paddedHeader inp) * width (paddedHeader inp)).toNat)
      ∧ (inp = [] → width (paddedHeader inp) = -1 ∧ height (paddedHeader inp) = -1
          ∧ bitDepth (paddedHeader inp) = -1 ∧ (main 3 w).status = .exited 0) := by
  have hP : paddedHeader inp = inp ++ List.replicate (54 - inp.length) 255 := by
    rw [← fill_eq_paddedHeader, fill_of_lt inp hshort]
  have hmain := main_padded w inp hin hout
  have hl := length_written w inp
  have hPl := length_paddedHeader inp
  have hiff : (main 3 w).status = .exited 0 ↔
      0 ≤ height (paddedHeader inp) * width (paddedHeader inp)
        ∧ height (paddedHeader inp) * width (paddedHeader inp) ≤ 2147483647 := by
    rcases hmain with ⟨h0, h1, hrun⟩ | ⟨hno, _, _, why, hst⟩
    · rw [hrun]
      exact ⟨fun _ => ⟨h0, h1⟩, fun _ => rfl⟩
    · rw [hst]
      exact ⟨fun h => by simp at h, fun h => absurd h hno⟩
  refine ⟨hP, ?_, ?_, hiff, ?_, ?_⟩
  · rw [headerLoop_main, fill_eq_paddedHeader, hP]
  · rcases hmain with ⟨_, _, hrun⟩ | ⟨_, hout2, _, _, _⟩
    · refine ⟨_, by rw [hrun], ?_⟩
      rw [List.append_assoc, List.take_left' hPl, hP]
    · refine ⟨_, hout2, ?_⟩
      rw [take_of_length_eq hPl, hP]
  · intro hst
    rcases hmain with ⟨_, _, hrun⟩ | ⟨_, _, _, why, hst2⟩
    · rw [hrun]
      refine ⟨rfl, _, rfl, ?_⟩
      rw [hl]
      unfold paletteBytes
      rfl
    · rw [hst2] at hst
      simp at hst
  · intro hnil
    subst hnil
    have hw : width (paddedHeader []) = -1 := by decide
    have hh : height (paddedHeader []) = -1 := by decide
    have hb : bitDepth (paddedHeader []) = -1 := by decide
    refine ⟨hw, hh, hb, ?_⟩
    rw [hiff, hw, hh]
    decide


/-! ## Inputs the specification wants rejected -/

/-- C4, as stated, fails: `truncatedFile` declares 58 bytes and holds 56, yet
the run returns 0, and the output has the full 58 bytes, the last two being
whatever `buffer` held. -/
theorem truncated_input_not_rejected :
    truncatedFile.length = 56 ∧ declaredLength truncatedFile = 58
      ∧ (main 3 (sampleWorld truncatedFile)).status = .exited 0
      ∧ (main 3 (sampleWorld truncatedFile)).outfile
          = some (truncatedFile ++ [0xC3, 0xC3]) := by
  decide

/-- C4, amended: an input shorter than the length its header declares (the
header being completed with `0xFF` when the input has fewer than 54 bytes) is
not rejected. When the product of the decoded dimensions lies in
`0 .. 2^31 - 1` the run returns 0 and the output has the full declared length:
the bytes of the input, then `0xFF` for each missing header byte, then, when
the bit depth is at most 8, what `color_table` held before the program ran from
the index where the read stopped, then what `buffer` held from the index where
its read stopped. -/
theorem truncated_input_completes (w : World) (inp : List Byte)
    (hin : w.infile = some inp) (hout : w.outfileOpens = true)
    (h0 : 0 ≤ width (paddedHeader inp) * height (paddedHeader inp))
    (hfit : width (paddedHeader inp) * height (paddedHeader inp) ≤ 2147483647)
    (hshort : inp.length < declaredLength (paddedHeader inp)) :
    (main 3 w).status = .exited 0
      ∧ (main 3 w).outfile = some
          (inp ++ List.replicate (54 - inp.length) 255
            ++ (if bitDepth (paddedHeader inp) ≤ 8 then
                  (uninit w.color_table0 1024).drop (min 1024 (inp.length - 54))
                else [])
            ++ (uninit w.buffer0
                  (width (paddedHeader inp) * height (paddedHeader inp)).toNat).drop
                (min (width (paddedHeader inp) * height (paddedHeader inp)).toNat
                  (inp.length - (54 + paletteBytes (bitDepth (paddedHeader inp))))))
      ∧ ∃ out, (main 3 w).outfile = some out
          ∧ out.length = declaredLength (paddedHeader inp) ∧ inp.length < out.length := by
  have hmul : height (paddedHeader inp) * width (paddedHeader inp)
      = width (paddedHeader inp) * height (paddedHeader inp) := Int.mul_comm _ _
  have hl := length_written w inp
  have hd : declaredLength (paddedHeader inp)
      = 54 + paletteBytes (bitDepth (paddedHeader inp))
        + (width (paddedHeader inp) * height (paddedHeader inp)).toNat := rfl
  have hf := written_of_short w inp (by rw [hmul, ← hd]; omega)
  rw [hmul] at hl hf
  rcases main_padded w inp hin hout with ⟨_, _, hrun⟩ | ⟨hno, _⟩
  · rw [hrun]
    refine ⟨rfl, by rw [hf], _, rfl, ?_, ?_⟩
    · rw [hl, hd]
    · rw [hl, ← hd]
      exact hshort
  · rw [hmul] at hno
    exact absurd ⟨h0, hfit⟩ hno

/-- C7, as stated, fails: the header of `negativeFile` decodes to width `-1`
and height `-1`, and the run completes with exit code 0, copying the file. -/
theorem negative_dimensions_not_rejected :
    width negativeFile = -1 ∧ height negativeFile = -1
      ∧ (main 3 (sampleWorld negativeFile)).status = .exited 0
      ∧ (main 3 (sampleWorld negativeFile)).outfile = some negativeFile := by
  decide

/-- C7, amended: the program validates no header field and has no
invalid-header exit. A header whose width or height is negative is not
rejected: whatever the signs of the two decoded dimensions, when their product
lies in `0 .. 2^31 - 1` the copy completes with exit code 0, prints the decoded
width and height, and writes the header followed by the palette and pixel
regions of the declared length. No run with three arguments ends with an exit
code other than 0. -/
theorem no_header_validation (w : World) (inp : List Byte)
    (hin : w.infile = some inp) (hout : w.outfileOpens = true) :
    (∀ code, (main 3 w).status = .exited code → code = 0)
      ∧ (0 ≤ width (paddedHeader inp) * height (paddedHeader inp) →
          width (paddedHeader inp) * height (paddedHeader inp) ≤ 2147483647 →
          (main 3 w).status = .exited 0
          ∧ (main 3 w).stdout = ["Copy successful!\n",
              "Width: " ++ toString (width (paddedHeader inp)) ++ "\n",
              "Height: " ++ toString (height (paddedHeader inp)) ++ "\n"]
          ∧ ∃ out, (main 3 w).outfile = some out ∧ out.take 54 = paddedHeader inp
              ∧ out.length = declaredLength (paddedHeader inp)) := by
  have hmul : height (paddedHeader inp) * width (paddedHeader inp)
      = width (paddedHeader inp) * height (paddedHeader inp) := Int.mul_comm _ _
  have hl := length_written w inp
  have hmain := main_padded w inp hin hout
  rw [hmul] at hmain hl
  refine ⟨?_, ?_⟩
  · intro code hcode
    rcases hmain with ⟨_, _, hrun⟩ | ⟨_, _, _, why, hst⟩
    · rw [hrun] at hcode
      simp only [Status.exited.injEq] at hcode
      omega
    · rw [hst] at hcode
      simp at hcode
  · intro h0 hfit
    rcases hmain with ⟨_, _, hrun⟩ | ⟨hno, _⟩
    · rw [hrun]
      refine ⟨rfl, rfl, _, rfl, ?_, ?_⟩
      · rw [List.append_assoc, List.take_left' (length_paddedHeader inp)]
      · rw [hl]
        rfl
    · exact absurd ⟨h0, hfit⟩ hno

/-! ## The theorems at concrete files -/

/-- The 58-byte file of the concrete scenario is copied byte for byte. -/
theorem roundtrip_identity_witness :
    (main 3 (sampleWorld sampleFile)).status = .exited 0
      ∧ (main 3 (sampleWorld sampleFile)).outfile
          = some (mkHeader 2 2 24 ++ [] ++ [10, 20, 30, 40]) :=
  roundtrip_identity (sampleWorld sampleFile) (mkHeader 2 2 24) [] [10, 20, 30, 40]
    rfl rfl (by decide) (by decide) (by decide) (by decide) (by decide) (by decide)

/-- The copy of the 58-byte file has `54 + 0 + 2 * 2` bytes. -/
theorem size_invariant_witness :
    ∃ out, (main 3 (sampleWorld sampleFile)).outfile = some out
      ∧ (out.length : Int)
          = 54 + (if bitDepth sampleFile ≤ 8 then 1024 else 0)
            + width sampleFile * height sampleFile :=
  size_invariant (sampleWorld sampleFile) sampleFile rfl rfl (by decide) (by decide)
    (by decide) (by decide)

set_option maxRecDepth 20000 in
/-- The copy of the 58-byte file of bit depth 24 has no palette block; the copy
of the 1079-byte file of bit depth 8 has the 1024 bytes of its colour table
after the header. -/
theorem conditional_palette_witness :
    (bitDepth sampleFile = 24
      ∧ ∃ pixels, (main 3 (sampleWorld sampleFile)).outfile
          = some (sampleFile.take 54 ++ pixels) ∧ pixels.length = 4)
    ∧ (bitDepth paletteFile = 8
      ∧ ∃ palette pixels, (main 3 (sampleWorld paletteFile)).outfile
          = some (paletteFile.take 54 ++ palette ++ pixels)
        ∧ palette = (paletteFile.drop 54).take 1024 ∧ palette.length = 1024
        ∧ pixels.length = 1) := by
  obtain ⟨_, pixels, _, hl, _, _, _, _, h24, _⟩ :=
    conditional_palette (sampleWorld sampleFile) sampleFile rfl rfl (by decide) (by decide)
      (by decide)
  obtain ⟨palette, pixels2, ho2, hl2, _, _, hp, h8, _, _⟩ :=
    conditional_palette (sampleWorld paletteFile) paletteFile rfl rfl (by decide) (by decide)
      (by decide)
  exact ⟨⟨by decide, pixels, (h24 (by decide)).2, hl⟩,
    ⟨by decide, palette, pixels2, ho2, hp (by decide), h8 (by decide), hl2⟩⟩

set_option maxRecDepth 40000 in
/-- The truncated 56-byte file is completed to 58 bytes with the two bytes
`buffer` held at indices 2 and 3, and the run returns 0. The two-byte file is
completed to 1079 bytes: 52 bytes `0xFF`, the 1024 bytes `color_table` held and
the byte `buffer` held. -/
theorem truncated_input_completes_witness :
    ((main 3 (sampleWorld truncatedFile)).status = .exited 0
      ∧ (main 3 (sampleWorld truncatedFile)).outfile
          = some (truncatedFile ++ [(sampleWorld truncatedFile).buffer0 2,
              (sampleWorld truncatedFile).buffer0 3]))
    ∧ ((main 3 (sampleWorld stubFile)).status = .exited 0
      ∧ (main 3 (sampleWorld stubFile)).outfile
          = some (stubFile ++ List.replicate 52 255 ++ List.replicate 1024 0xB2 ++ [0xC3])) :=
  have h := truncated_input_completes (sampleWorld truncatedFile) truncatedFile rfl rfl
    (by decide) (by decide) (by decide)
  have h2 := truncated_input_completes (sampleWorld stubFile) stubFile rfl rfl
    (by decide) (by decide) (by decide)
  ⟨⟨h.1, h.2.1.trans (by decide)⟩, ⟨h2.1, h2.2.1.trans (by decide)⟩⟩

/-- With two arguments in all, the program ends through `exit(1000)` and
touches no file. -/
theorem argument_count_validation_witness :
    main 2 (sampleWorld sampleFile)
        = { status := .exited 1000, stdout := [usageMessage], fopens := [], outfile := none }
      ∧ (main 3 (sampleWorld sampleFile)).fopens = [(1, "rb"), (2, "wb")]
      ∧ usageMessage ∉ (main 3 (sampleWorld sampleFile)).stdout
      ∧ (main 3 (sampleWorld sampleFile)).status ≠ .exited 1000 :=
  argument_count_validation 2 (sampleWorld sampleFile) (by decide)

/-- Bytes `02 00 00 00` at offsets 18 and 22 are reported as width 2 and
height 2. -/
theorem field_decoding_witness :
    (main 3 (sampleWorld sampleFile)).status = .exited 0
      ∧ (main 3 (sampleWorld sampleFile)).stdout
          = ["Copy successful!\n", "Width: 2\n", "Height: 2\n"] := by
  obtain ⟨_, _, _, _, hiff, hall⟩ :=
    field_decoding (sampleWorld sampleFile) (mkHeader 2 2 24) [10, 20, 30, 40] rfl rfl
      (by decide)
  have hst : (main 3 (sampleWorld sampleFile)).status = .exited 0 := hiff.2 (by decide)
  refine ⟨hst, ?_⟩
  rw [(hall 0 hst).2.1]
  decide

/-- A header of width `-2` and height `-3` is not rejected: the run returns 0,
reports both negative values and copies the six pixel bytes. -/
theorem no_header_validation_witness :
    width (paddedHeader negativeSixFile) = -2 ∧ height (paddedHeader negativeSixFile) = -3
      ∧ (main 3 (sampleWorld negativeSixFile)).status = .exited 0
      ∧ (main 3 (sampleWorld negativeSixFile)).stdout
          = ["Copy successful!\n", "Width: -2\n", "Height: -3\n"] := by
  have h := (no_header_validation (sampleWorld negativeSixFile) negativeSixFile rfl rfl).2
    (by decide) (by decide)
  exact ⟨by decide, by decide, h.1, h.2.1.trans (by decide)⟩

/-- The three bytes after the declared length of `trailingFile` are dropped. -/
theorem trailing_data_dropped_witness :
    (main 3 (sampleWorld trailingFile)).outfile
        = some (trailingFile.take (declaredLength trailingFile))
      ∧ (main 3 (sampleWorld trailingFile)).outfile ≠ some trailingFile :=
  have h := trailing_data_dropped (sampleWorld trailingFile) trailingFile rfl rfl (by decide)
    (by decide) (by decide) (by decide)
  ⟨h.1, h.2.1 (by decide)⟩

/-- Copying the copy of `trailingFile` gives the same 58 bytes again. -/
theorem copy_idempotent_witness :
    (main 3 (sampleWorld sampleFile)).status = .exited 0
      ∧ (main 3 (sampleWorld sampleFile)).outfile
          = (main 3 (sampleWorld trailingFile)).outfile :=
  copy_idempotent (sampleWorld trailingFile) (sampleWorld sampleFile) trailingFile rfl rfl
    (by decide) (by decide) (by decide) (by decide) (by decide) rfl

/-- A two-byte file gives a header of those two bytes and 52 bytes `0xFF`. -/
theorem short_header_fill_witness :
    ∃ out, (main 3 (sampleWorld stubFile)).outfile = some out
      ∧ out.take 54 = stubFile ++ List.replicate (54 - stubFile.length) 255 :=
  (short_header_fill (sampleWorld stubFile) stubFile rfl rfl (by decide)).2.2.1

end BmpCopy
